import Mathlib

/-!
Verification development for the USCIS assistant chat application
(`src/app.py`).  The pipeline is embedded shallowly: pure string logic is
translated directly, and the effects of the external world (HTTP search
responses, the model backend, Streamlit secrets) are passed in as explicit
values, so every function here is executable and total.
-/

namespace UscisApp

/-! ### Generation events (`app.py` lines 129-144)

An ADK generation event optionally carries a `content` payload whose
`parts` list holds sub-parts, each with an optional `text` field. -/

/-- Sub-part of an event content payload; `text` is `none` when the Python
attribute is `None`. -/
structure Part where
  text : Option String
deriving DecidableEq, Repr

/-- Content payload of a generation event. -/
structure Content where
  parts : List Part
deriving DecidableEq, Repr

/-- One generation event; `content` is `none` when the Python attribute is
`None` (the `hasattr`/truthiness guard in the loop). -/
structure Event where
  content : Option Content
deriving DecidableEq, Repr

/-- Fixed message returned when no response text is found
(`app.py` line 140). -/
def emptyResponseMsg : String :=
  "An error occurred: The agent returned an empty response."

/-- Message produced by the `except` branch around response parsing
(`app.py` line 144), with the `AttributeError` text raised when the last
event has no content payload. -/
def parseErrorMsg : String :=
  "An error occurred while parsing the agent\x27s response: \x27NoneType\x27 object has no attribute \x27parts\x27"

/-- Embedding of `text.strip().startswith('{')` (`app.py` line 134): the
first character after leading whitespace is an opening brace. -/
def looksLikeJson (t : List Char) : Bool :=
  match t.dropWhile Char.isWhitespace with
  | [] => false
  | c :: _ => c == '\x7b'

/-- Embedding of the `for event in reversed(result_events)` loop
(`app.py` lines 131-135), applied to the already-reversed list: take the
first event whose content exists, whose parts list is non-empty, and whose
first part has truthy text not starting with a brace. -/
def scanEvents : List Event → Option String
  | [] => none
  | e :: rest =>
    match e.content with
    | none => scanEvents rest
    | some c =>
      match c.parts with
      | [] => scanEvents rest
      | p :: _ =>
        match p.text with
        | none => scanEvents rest
        | some t =>
          if t != "" && !looksLikeJson t.data then some t else scanEvents rest

/-- Result of the response-parsing block: either a value returned by the
Python code (possibly `None`, hence `Option String`), or the exception
raised when the final fallback dereferences a missing content payload. -/
inductive ExtractOutcome where
  | ok (text : Option String)
  | parseError
deriving DecidableEq, Repr

/-- Embedding of the inner `try` block of `get_agent_response_async`
(`app.py` lines 129-140): the reversed-scan loop, then the fallback
`result_events[-1].content.parts[0].text`, then the fixed empty-response
message. -/
def extractResponse (events : List Event) : ExtractOutcome :=
  match scanEvents events.reverse with
  | some t => .ok (some t)
  | none =>
    match events.getLast? with
    | none => .ok (some emptyResponseMsg)
    | some e =>
      match e.content with
      | none => .parseError
      | some c =>
        match c.parts with
        | [] => .ok (some emptyResponseMsg)
        | p :: _ => .ok p.text

/-- Event usable by the scan loop: content present, parts non-empty, and
the first part carries truthy text that does not look like a tool-call
payload. -/
def isUsableEvent (e : Event) : Bool :=
  match e.content with
  | none => false
  | some c =>
    match c.parts with
    | [] => false
    | p :: _ =>
      match p.text with
      | none => false
      | some t => t != "" && !looksLikeJson t.data

/-- Text of the first part of an event, when present. -/
def usableText (e : Event) : Option String :=
  e.content.bind fun c => c.parts.head?.bind Part.text

lemma usableText_of_usable {e : Event} (h : isUsableEvent e = true) :
    ∃ t, usableText e = some t ∧ (t != "" && !looksLikeJson t.data) = true := by
  cases hc : e.content with
  | none => simp [isUsableEvent, hc] at h
  | some c =>
    cases hp : c.parts with
    | nil => simp [isUsableEvent, hc, hp] at h
    | cons p ps =>
      cases ht : p.text with
      | none => simp [isUsableEvent, hc, hp, ht] at h
      | some t =>
        refine ⟨t, by simp [usableText, hc, hp, ht], ?_⟩
        have h2 := h
        simp only [isUsableEvent, hc, hp, ht] at h2
        exact h2

lemma scanEvents_eq_find (l : List Event) :
    scanEvents l = (l.find? isUsableEvent).bind usableText := by
  induction l with
  | nil => rfl
  | cons e rest ih =>
    cases hu : isUsableEvent e with
    | true =>
      rw [List.find?_cons_of_pos _ hu]
      obtain ⟨t, ht, hcond⟩ := usableText_of_usable hu
      cases hc : e.content with
      | none => simp [isUsableEvent, hc] at hu
      | some c =>
        cases hp : c.parts with
        | nil => simp [isUsableEvent, hc, hp] at hu
        | cons p ps =>
          cases htx : p.text with
          | none => simp [isUsableEvent, hc, hp, htx] at hu
          | some t' =>
            have ht' : usableText e = some t' := by
              simp [usableText, hc, hp, htx]
            obtain rfl : t' = t := Option.some.inj (ht'.symm.trans ht)
            simp [scanEvents, hc, hp, htx, hcond, ht']
    | false =>
      rw [List.find?_cons_of_neg _ (by simp [hu])]
      rw [← ih]
      cases hc : e.content with
      | none => simp [scanEvents, hc]
      | some c =>
        cases hp : c.parts with
        | nil => simp [scanEvents, hc, hp]
        | cons p ps =>
          cases htx : p.text with
          | none => simp [scanEvents, hc, hp, htx]
          | some t =>
            have hcond : (t != "" && !looksLikeJson t.data) = false := by
              have h2 := hu
              simp only [isUsableEvent, hc, hp, htx] at h2
              exact h2
            simp [scanEvents, hc, hp, htx, hcond]

/-- Claim C1 (amended): walking the event sequence from the end, the
extractor returns the text of the first event whose first part has
non-empty text not opening (after stripping whitespace) with a brace; when
no such event exists, it returns the last event's first part's text
verbatim whenever the sequence is non-empty and the last event has a
content with at least one part, returns the fixed empty-response message
only when the sequence is empty or the last event's content has no parts,
and raises (yielding the parse-error path) when the last event has no
content. -/
theorem extractResponse_characterized (events : List Event) :
    extractResponse events =
      match events.reverse.find? isUsableEvent with
      | some e => ExtractOutcome.ok (usableText e)
      | none =>
        match events.getLast? with
        | none => ExtractOutcome.ok (some emptyResponseMsg)
        | some e =>
          match e.content with
          | none => ExtractOutcome.parseError
          | some c =>
            match c.parts with
            | [] => ExtractOutcome.ok (some emptyResponseMsg)
            | p :: _ => ExtractOutcome.ok p.text := by
  unfold extractResponse
  rw [ scanEvents_eq_find]
  cases hf : events.reverse.find? isUsableEvent with
  | none => rfl
  | some e =>
    obtain ⟨t, ht, _⟩ := usableText_of_usable (List.find?_some hf)
    simp [ht]

/-- Event whose only part is a brace-opened tool-call echo. -/
def toolEchoEvent : Event := ⟨some ⟨[⟨some "\x7btool call\x7d"⟩]⟩⟩

/-- Claim C1, counterexample: with a single event whose part text opens
with a brace, no event qualifies for the reversed scan, yet the extractor
returns that brace-opened text through the final fallback instead of the
fixed empty-response message the claim promises. -/
theorem extract_fallback_returns_tool_echo :
    isUsableEvent toolEchoEvent = false
    ∧ extractResponse [toolEchoEvent] = ExtractOutcome.ok (some "\x7btool call\x7d")
    ∧ ExtractOutcome.ok (some "\x7btool call\x7d")
        ≠ ExtractOutcome.ok (some emptyResponseMsg) := by
  refine ⟨by decide, by decide, by decide⟩

/-- Replace an event's parts with just its first part. -/
def truncToFirstPart (e : Event) : Event :=
  ⟨e.content.map fun c => ⟨c.parts.take 1⟩⟩

lemma scanEvents_trunc (l : List Event) :
    scanEvents (l.map truncToFirstPart) = scanEvents l := by
  induction l with
  | nil => rfl
  | cons e rest ih =>
    cases hc : e.content with
    | none => simp [scanEvents, truncToFirstPart, hc, ih]
    | some c =>
      cases hp : c.parts with
      | nil => simp [scanEvents, truncToFirstPart, hc, hp, ih]
      | cons p ps =>
        cases htx : p.text with
        | none => simp [scanEvents, truncToFirstPart, hc, hp, htx, ih]
        | some t =>
          cases hb : (t != "" && !looksLikeJson t.data) with
          | true => simp [scanEvents, truncToFirstPart, hc, hp, htx, hb]
          | false => simp [scanEvents, truncToFirstPart, hc, hp, htx, hb, ih]

/-- Claim C9: the extractor inspects only the first part of each event's
content: truncating every event to its first part never changes the
result, and in particular an event whose first part has empty text is
skipped by the scan even when a later part of the same event carries
non-empty plain text. -/
theorem extractor_reads_only_first_part (events : List Event) :
    extractResponse (events.map truncToFirstPart) = extractResponse events
    ∧ extractResponse [⟨some ⟨[⟨some ""⟩, ⟨some "hello"⟩]⟩⟩]
        = ExtractOutcome.ok (some "") := by
  constructor
  · unfold extractResponse
    rw [← List.map_reverse, scanEvents_trunc, List.getLast?_map]
    cases hs : scanEvents events.reverse with
    | some t => rfl
    | none =>
      cases hl : events.getLast? with
      | none => rfl
      | some e =>
        cases hc : e.content with
        | none => simp [truncToFirstPart, hc]
        | some c =>
          cases hp : c.parts with
          | nil => simp [truncToFirstPart, hc, hp]
          | cons p ps => simp [truncToFirstPart, hc, hp]
  · decide

/-! ### Query builder (`app.py` lines 34-35)

The user query is a Python string, modelled as its character list.  The
code prepends the fixed site-restriction token when the token does not
occur as a substring of the query. -/

/-- The domain-restriction token of `search_uscis`. -/
def siteTokenChars : List Char := "site:uscis.gov".data

/-- Embedding of the Python substring test `pat in s`. -/
def containsSub (pat : List Char) : List Char → Bool
  | [] => pat.isPrefixOf []
  | c :: cs => pat.isPrefixOf (c :: cs) || containsSub pat cs

/-- Number of positions at which `pat` occurs in the list. -/
def countOcc (pat : List Char) : List Char → Nat
  | [] => if pat.isPrefixOf [] then 1 else 0
  | c :: cs => (if pat.isPrefixOf (c :: cs) then 1 else 0) + countOcc pat cs

/-- Embedding of `app.py` lines 34-35: prepend `"site:uscis.gov "` exactly
when the token is not already a substring of the query. -/
def addSiteRestriction (q : List Char) : List Char :=
  if containsSub siteTokenChars q then q else siteTokenChars ++ (' ' :: q)

lemma countOcc_eq_zero {pat : List Char} :
    ∀ {s : List Char}, containsSub pat s = false → countOcc pat s = 0 := by
  intro s
  induction s with
  | nil => intro h; simp [containsSub] at h; simp [countOcc, h]
  | cons c cs ih =>
    intro h
    simp only [containsSub, Bool.or_eq_false_iff] at h
    simp [countOcc, h.1, ih h.2]

lemma countOcc_pos_contains {pat : List Char} :
    ∀ {s : List Char}, 1 ≤ countOcc pat s → containsSub pat s = true := by
  intro s h
  cases hb : containsSub pat s with
  | true => rfl
  | false => rw [countOcc_eq_zero hb] at h; exact absurd h (by simp)

lemma contains_countOcc_pos {pat : List Char} :
    ∀ {s : List Char}, containsSub pat s = true → 1 ≤ countOcc pat s := by
  intro s
  induction s with
  | nil => intro h; simp [containsSub] at h; simp [countOcc, h]
  | cons c cs ih =>
    intro h
    simp only [containsSub, Bool.or_eq_true] at h
    rcases h with h | h
    · simp [countOcc, h]
    · have := ih h
      simp only [countOcc]
      omega

lemma isPrefixOf_self_append (p r : List Char) : p.isPrefixOf (p ++ r) = true := by
  rw [ List.isPrefixOf_iff_prefix]
  exact List.prefix_append p r

/-- No occurrence of `pat` starts inside a strict leftover `u` of `pat`
followed by a separator character absent from `pat` and a remainder free of
occurrences. -/
lemma countOcc_sep_block {pat : List Char} {sep : Char} (hsep : sep ∉ pat) :
    ∀ u q, u.length < pat.length → containsSub pat q = false →
      countOcc pat (u ++ sep :: q) = 0 := by
  intro u
  induction u with
  | nil =>
    intro q hlen hq
    obtain ⟨p, ps, rfl⟩ : ∃ p ps, pat = p :: ps := by
      cases pat with
      | nil => exact absurd hlen (by simp)
      | cons p ps => exact ⟨p, ps, rfl⟩
    have hne : p ≠ sep := fun h => hsep (h ▸ List.mem_cons_self p ps)
    have hpre : (p :: ps).isPrefixOf (sep :: q) = false := by
      show ((p == sep) && ps.isPrefixOf q) = false
      simp [beq_eq_false_iff_ne.mpr hne]
    show (if (p :: ps).isPrefixOf (sep :: q) = true then 1 else 0)
        + countOcc (p :: ps) q = 0
    rw [hpre, countOcc_eq_zero hq]
    simp
  | cons c u' ih =>
    intro q hlen hq
    have hrest : countOcc pat (u' ++ sep :: q) = 0 :=
      ih q (Nat.lt_of_succ_lt hlen) hq
    have hpre : pat.isPrefixOf (c :: (u' ++ sep :: q)) = false := by
      cases hb : pat.isPrefixOf (c :: (u' ++ sep :: q)) with
      | false => rfl
      | true =>
        exfalso
        have hpref : pat <+: (c :: u') ++ sep :: q := by
          have := ( List.isPrefixOf_iff_prefix).mp hb
          simpa using this
        have htake := ( List.prefix_iff_eq_take).mp hpref
        rw [ List.take_append_eq_append_take] at htake
        have h1 : (c :: u').take pat.length = c :: u' :=
          List.take_of_length_le (Nat.le_of_lt (by simpa using hlen))
        obtain ⟨m, hm⟩ : ∃ m, pat.length - (c :: u').length = m + 1 := by
          have h1le : 1 ≤ pat.length - (c :: u').length := by omega
          exact ⟨pat.length - (c :: u').length - 1, by omega⟩
        rw [h1, hm] at htake
        have : sep ∈ pat := by
          rw [htake]
          exact List.mem_append_right _ (by simp [ List.take_succ_cons])
        exact hsep this
    show (if pat.isPrefixOf (c :: (u' ++ sep :: q)) = true then 1 else 0)
        + countOcc pat (u' ++ sep :: q) = 0
    rw [hpre, hrest]
    simp

/-- Prepending the token and a separator to a token-free query yields
exactly one occurrence of the token. -/
lemma countOcc_self_prepend {pat : List Char} {sep : Char} (hne : pat ≠ [])
    (hsep : sep ∉ pat) {q : List Char} (hq : containsSub pat q = false) :
    countOcc pat (pat ++ sep :: q) = 1 := by
  obtain ⟨p, ps, rfl⟩ := List.exists_cons_of_ne_nil hne
  have hpre : (p :: ps).isPrefixOf (p :: (ps ++ sep :: q)) = true := by
    have h := isPrefixOf_self_append (p :: ps) (sep :: q)
    rw [ List.cons_append] at h
    exact h
  have hrest : countOcc (p :: ps) (ps ++ sep :: q) = 0 :=
    countOcc_sep_block hsep ps q (by simp) hq
  show (if (p :: ps).isPrefixOf (p :: (ps ++ sep :: q)) = true then 1 else 0)
      + countOcc (p :: ps) (ps ++ sep :: q) = 1
  rw [hpre, hrest]
  simp

/-- Claim C2 (amended): the outgoing search query contains the
domain-restriction token exactly once whenever the user's text contains it
at most once: if the token is absent it is prepended and then occurs
exactly once, while a query already containing the token is passed through
unchanged (so a query that already holds several copies keeps them all). -/
theorem addSiteRestriction_token_count (q : List Char) :
    (countOcc siteTokenChars q = 0 →
      countOcc siteTokenChars (addSiteRestriction q) = 1)
    ∧ (1 ≤ countOcc siteTokenChars q → addSiteRestriction q = q) := by
  constructor
  · intro h0
    have hc : containsSub siteTokenChars q = false := by
      cases hb : containsSub siteTokenChars q with
      | false => rfl
      | true =>
        have := contains_countOcc_pos hb
        omega
    rw [addSiteRestriction, hc]
    simp only [Bool.false_eq_true, if_false]
    exact countOcc_self_prepend (by decide) (by decide) hc
  · intro h1
    have hc := countOcc_pos_contains h1
    rw [addSiteRestriction, hc]
    simp

/-- Claim C2, witness: on the empty user query the token is prepended and
occurs exactly once. -/
theorem addSiteRestriction_token_count_witness :
    countOcc siteTokenChars (addSiteRestriction []) = 1 :=
  (addSiteRestriction_token_count []).1 (by decide)

/-- User query that already carries the token twice. -/
def doubledSiteQuery : List Char := siteTokenChars ++ ' ' :: siteTokenChars

/-- Claim C2, counterexample: a user query already containing the token
twice passes through unchanged, so the outgoing query holds the token
twice, not exactly once. -/
theorem addSiteRestriction_duplicate_tokens :
    containsSub siteTokenChars doubledSiteQuery = true
    ∧ countOcc siteTokenChars (addSiteRestriction doubledSiteQuery) = 2
    ∧ (2 : Nat) ≠ 1 := by
  refine ⟨by decide, by decide, by decide⟩

/-! ### Retriever (`app.py` lines 39-72)

The body of `search_uscis` runs inside one `try` whose `except` turns any
exception into a string prefixed with `"Error searching USCIS: "`.  The
outside world is passed in explicitly: the process environment (the two
credentials) and the outcome of the HTTP GET.  Per the `requests` library,
`raise_for_status` raises exactly for status codes in `[400, 600)`, and
`response.json()` either yields a parsed body or raises a decode error. -/

/-- Process environment holding the two credentials set at startup. -/
structure EnvState where
  googleApiKey : Option String
  googleCseId : Option String
deriving DecidableEq, Repr

/-- One search item from the JSON body; each field is `none` when the key
is absent (`item.get(...)` returning `None`). -/
structure SearchItem where
  title : Option String
  link : Option String
  snippet : Option String
deriving DecidableEq, Repr

/-- Parsed JSON body; `items` is `[]` when the key is absent
(`data.get("items", [])`). -/
structure SearchBody where
  items : List SearchItem
deriving DecidableEq, Repr

/-- Outcome of the HTTP GET as seen by `search_uscis`: either the request
itself raised (timeout, connection error, ...) with the exception's string,
or a response arrived carrying a status code, the text of the `HTTPError`
that `raise_for_status` would raise, and a body that either parses or
raises a decode error with the given message. -/
inductive HttpResult where
  | transportError (msg : String)
  | response (status : Nat) (statusErrMsg : String) (body : Except String SearchBody)
deriving Repr

/-- Fixed prefix of every error string produced by `search_uscis`. -/
def searchErrorLead : String := "Error searching USCIS: "

/-- Fixed string returned on a successful call with zero items. -/
def noResultsMsg : String := "No results found on www.uscis.gov."

/-- Rendering of a Python value in an f-string: `None` prints as "None". -/
def pyStr : Option String → String
  | none => "None"
  | some s => s

/-- Formatting of one search item (`app.py` lines 63-65). -/
def formatResult (item : SearchItem) : String :=
  "Title: " ++ pyStr item.title ++ "\n"
    ++ "Link: " ++ pyStr item.link ++ "\n"
    ++ "Snippet: " ++ pyStr item.snippet ++ "\n\n"

/-- Accumulating loop of `app.py` lines 61-65. -/
def formatResults (items : List SearchItem) : String :=
  items.foldl (fun acc item => acc ++ formatResult item) ""

/-- Embedding of `search_uscis` (`app.py` lines 39-72).  The first
argument is the process environment, the second the outcome of the HTTP
GET issued with the site-restricted query `addSiteRestriction query`; the
result is the string handed back to the agent. -/
def searchUscis (env : EnvState) (http : HttpResult) (_query : List Char) : String :=
  match env.googleApiKey with
  | none => searchErrorLead ++ "\x27GOOGLE_API_KEY\x27"
  | some _ =>
    match env.googleCseId with
    | none => searchErrorLead ++ "\x27GOOGLE_CSE_ID\x27"
    | some _ =>
      match http with
      | .transportError msg => searchErrorLead ++ msg
      | .response status statusErrMsg body =>
        if 400 ≤ status ∧ status < 600 then searchErrorLead ++ statusErrMsg
        else
          match body with
          | .error jsonErr => searchErrorLead ++ jsonErr
          | .ok data =>
            match data.items with
            | [] => noResultsMsg
            | _ :: _ => formatResults (data.items.take 5)

/-- A search call that raised in transport or carried a status that
`raise_for_status` raises on (4xx/5xx). -/
def isHardSearchFailure : HttpResult → Bool
  | .transportError _ => true
  | .response status _ _ => decide (400 ≤ status ∧ status < 600)

lemma searchErrorLead_isPrefix (e : String) :
    searchErrorLead.data.isPrefixOf (searchErrorLead ++ e).data = true := by
  rw [String.data_append]
  exact isPrefixOf_self_append _ _

lemma errorLead_ne_noResults {e : String} : searchErrorLead ++ e ≠ noResultsMsg := by
  intro h
  have hp := searchErrorLead_isPrefix e
  rw [h] at hp
  exact absurd hp (by decide)

/-- Claim C3 (amended): a transport error or a 4xx/5xx response — the
statuses `raise_for_status` actually raises on, rather than every non-2xx
status — is mapped to a string carrying the fixed error lead, which is
never the distinct fixed no-matches string, so the caller can tell the two
outcomes apart. -/
theorem search_failure_distinguishable (env : EnvState) (http : HttpResult)
    (q : List Char) (h : isHardSearchFailure http = true) :
    searchErrorLead.data.isPrefixOf (searchUscis env http q).data = true
    ∧ searchUscis env http q ≠ noResultsMsg := by
  obtain ⟨key, cse⟩ := env
  have main : ∃ e, searchUscis ⟨key, cse⟩ http q = searchErrorLead ++ e := by
    cases key with
    | none => exact ⟨_, rfl⟩
    | some k =>
      cases cse with
      | none => exact ⟨_, rfl⟩
      | some c =>
        cases http with
        | transportError m => exact ⟨m, rfl⟩
        | response s m body =>
          have hs : 400 ≤ s ∧ s < 600 := by
            simp only [isHardSearchFailure] at h
            exact of_decide_eq_true h
          refine ⟨m, ?_⟩
          simp only [searchUscis]
          rw [if_pos hs]
  obtain ⟨e, he⟩ := main
  rw [he]
  exact ⟨searchErrorLead_isPrefix e, errorLead_ne_noResults⟩

/-- Claim C3, witness: a transport timeout yields an error-lead string
distinct from the no-matches string. -/
theorem search_failure_distinguishable_witness :
    searchErrorLead.data.isPrefixOf
        (searchUscis ⟨some "k", some "c"⟩ (HttpResult.transportError "timeout") []).data
      = true
    ∧ searchUscis ⟨some "k", some "c"⟩ (HttpResult.transportError "timeout") []
        ≠ noResultsMsg :=
  search_failure_distinguishable ⟨some "k", some "c"⟩
    (HttpResult.transportError "timeout") [] (by decide)

/-- Claim C3, counterexample: a non-2xx redirect-class response whose body
still parses with zero items is returned as the very no-matches string, so
for such a call the failure and no-matches outcomes are conflated. -/
theorem search_nonsuccess_status_conflated :
    searchUscis ⟨some "k", some "cx"⟩
        (HttpResult.response 304 "304 Not Modified" (Except.ok ⟨[]⟩)) []
      = noResultsMsg
    ∧ ¬ (200 ≤ 304 ∧ 304 < 300) := by
  refine ⟨by decide, by decide⟩

/-- Claim C4: on a successful call — credentials present, status outside
the raising range, parseable body — with a non-empty item list, the output
is the rendering of the first at most five items, a prefix of the order
the search API returned. -/
theorem searchResults_capped_ordered (k c : String) (status : Nat) (m : String)
    (body : SearchBody) (q : List Char)
    (hs : ¬ (400 ≤ status ∧ status < 600)) (hne : body.items ≠ []) :
    searchUscis ⟨some k, some c⟩ (HttpResult.response status m (Except.ok body)) q
        = formatResults (body.items.take 5)
    ∧ (body.items.take 5).length ≤ 5
    ∧ body.items.take 5 <+: body.items := by
  refine ⟨?_, List.length_take_le 5 _, List.take_prefix 5 _⟩
  simp only [searchUscis]
  rw [if_neg hs]
  obtain ⟨i, is, hi⟩ := List.exists_cons_of_ne_nil hne
  rw [hi]

/-- Six search items used to exercise the cap. -/
def sixItems : List SearchItem :=
  [⟨some "T1", some "L1", some "S1"⟩, ⟨some "T2", some "L2", some "S2"⟩,
   ⟨some "T3", some "L3", some "S3"⟩, ⟨some "T4", some "L4", some "S4"⟩,
   ⟨some "T5", some "L5", some "S5"⟩, ⟨some "T6", some "L6", some "S6"⟩]

/-- Claim C4, witness: with six returned items the output renders exactly
the first five, in order. -/
theorem searchResults_capped_ordered_witness :
    searchUscis ⟨some "k", some "c"⟩
        (HttpResult.response 200 "ok" (Except.ok ⟨sixItems⟩)) []
      = formatResults (sixItems.take 5)
    ∧ (sixItems.take 5).length ≤ 5
    ∧ sixItems.take 5 <+: sixItems :=
  searchResults_capped_ordered "k" "c" 200 "ok" ⟨sixItems⟩ []
    (by decide) (by decide)

/-- Search call classified as failing somewhere: a missing credential, a
transport error, a raising status, or an unparseable body. -/
def searchFailed (env : EnvState) (http : HttpResult) : Bool :=
  env.googleApiKey.isNone || env.googleCseId.isNone ||
    (match http with
     | .transportError _ => true
     | .response status _ body =>
       decide (400 ≤ status ∧ status < 600) ||
         (match body with
          | .error _ => true
          | .ok _ => false))

/-- Claim C10 (amended): the embedding of `search_uscis` is a total
function; every failing input — missing credential, transport error,
raising (4xx/5xx, rather than every non-2xx) status, or malformed JSON —
yields a string carrying the fixed error lead; a non-failing call carries a
parsed body and yields the fixed no-results string on zero items and the
formatted items otherwise; and the no-results string never carries the
error lead. -/
theorem searchUscis_total_classification (env : EnvState) (http : HttpResult)
    (q : List Char) :
    (searchFailed env http = true →
      searchErrorLead.data.isPrefixOf (searchUscis env http q).data = true)
    ∧ (searchFailed env http = false →
        ∃ status m body, http = HttpResult.response status m (Except.ok body)
          ∧ (body.items = [] → searchUscis env http q = noResultsMsg)
          ∧ (body.items ≠ [] →
              searchUscis env http q = formatResults (body.items.take 5)))
    ∧ searchErrorLead.data.isPrefixOf noResultsMsg.data = false := by
  obtain ⟨key, cse⟩ := env
  refine ⟨?_, ?_, by decide⟩
  · intro hf
    cases key with
    | none => exact searchErrorLead_isPrefix _
    | some k =>
      cases cse with
      | none => exact searchErrorLead_isPrefix _
      | some c =>
        cases http with
        | transportError m => exact searchErrorLead_isPrefix m
        | response s m body =>
          cases body with
          | error j =>
            by_cases hs : 400 ≤ s ∧ s < 600
            · have heq : searchUscis ⟨some k, some c⟩
                  (HttpResult.response s m (Except.error j)) q
                    = searchErrorLead ++ m := by
                simp only [searchUscis]
                rw [if_pos hs]
              rw [heq]
              exact searchErrorLead_isPrefix m
            · have heq : searchUscis ⟨some k, some c⟩
                  (HttpResult.response s m (Except.error j)) q
                    = searchErrorLead ++ j := by
                simp only [searchUscis]
                rw [if_neg hs]
              rw [heq]
              exact searchErrorLead_isPrefix j
          | ok data =>
            have hs : 400 ≤ s ∧ s < 600 := by
              simp only [searchFailed, Option.isNone_some, Bool.false_or] at hf
              simpa using hf
            have heq : searchUscis ⟨some k, some c⟩
                (HttpResult.response s m (Except.ok data)) q
                  = searchErrorLead ++ m := by
              simp only [searchUscis]
              rw [if_pos hs]
            rw [heq]
            exact searchErrorLead_isPrefix m
  · intro hf
    cases key with
    | none => simp [searchFailed] at hf
    | some k =>
      cases cse with
      | none => simp [searchFailed] at hf
      | some c =>
        cases http with
        | transportError m => simp [searchFailed] at hf
        | response s m body =>
          cases body with
          | error j => simp [searchFailed] at hf
          | ok data =>
            have hs : ¬ (400 ≤ s ∧ s < 600) := by
              simp [searchFailed] at hf
              omega
            refine ⟨s, m, data, rfl, ?_, ?_⟩
            · intro hempty
              simp only [searchUscis]
              rw [if_neg hs, hempty]
            · intro hne
              obtain ⟨i, is, hi⟩ := List.exists_cons_of_ne_nil hne
              simp only [searchUscis]
              rw [if_neg hs, hi]

/-- Claim C10, witness: a missing API key yields the error-lead string. -/
theorem searchUscis_total_classification_witness :
    searchErrorLead.data.isPrefixOf
        (searchUscis ⟨none, some "c"⟩ (HttpResult.transportError "boom") []).data
      = true :=
  (searchUscis_total_classification ⟨none, some "c"⟩
    (HttpResult.transportError "boom") []).1 (by decide)

/-- Claim C10, counterexample: a 301 response with a parseable empty body
is a non-2xx status yet is returned as the no-results string, which does
not begin with the error lead. -/
theorem searchUscis_redirect_status_not_error :
    searchUscis ⟨some "k", some "cx"⟩
        (HttpResult.response 301 "301 Moved Permanently" (Except.ok ⟨[]⟩)) []
      = noResultsMsg
    ∧ searchErrorLead.data.isPrefixOf noResultsMsg.data = false
    ∧ ¬ (200 ≤ 301 ∧ 301 < 300) := by
  refine ⟨by decide, by decide, by decide⟩

/-! ### Agent turn (`app.py` lines 114-156 and 169-180)

The externals of one agent invocation are passed in explicitly: whether
`create_agent()` (and hence the `agent = ...` assignment) succeeded,
whether the constructed model object exposes a `client` attribute, and the
outcome of the runner construction plus `run_debug` (an exception in
either propagates identically). -/

/-- External outcomes of one agent invocation. -/
structure ModelBackend where
  create : Except String Unit
  modelHasClient : Bool
  runResult : Except String (List Event)

/-- Embedding of the inner `try`/`except` around response parsing
(`app.py` lines 129-144): a parse exception degrades to a message rather
than failing the request. -/
def responseOfEvents (events : List Event) : Option String :=
  match extractResponse events with
  | .ok t => t
  | .parseError => some parseErrorMsg

/-- Embedding of `get_agent_response_async` (`app.py` lines 114-148): the
first component is the value it returns (or the exception it propagates),
the second whether `agent.model.client.close()` was awaited in the
`finally` block — which happens exactly when the agent was assigned and
its model has a `client` attribute, on every exit path. -/
def get_agent_response_async (b : ModelBackend) :
    Except String (Option String) × Bool :=
  match b.create with
  | .error e => (.error e, false)
  | .ok _ =>
    (match b.runResult with
     | .error e => .error e
     | .ok events => .ok (responseOfEvents events), b.modelHasClient)

/-- Fixed lead of the synchronous wrapper's error message (`app.py`
line 156). -/
def processingErrorLead : String :=
  "An error occurred while processing your request: "

/-- Embedding of `get_agent_response` (`app.py` lines 151-156): any
exception out of the async call degrades to an error string, so the
wrapper is total. -/
def get_agent_response (b : ModelBackend) : Option String :=
  match (get_agent_response_async b).1 with
  | .error e => some (processingErrorLead ++ e)
  | .ok t => t

/-- A network client exists for the turn exactly when agent construction
succeeded and the model object exposes a `client` attribute. -/
def clientExists (b : ModelBackend) : Bool :=
  (match b.create with
   | .ok _ => true
   | .error _ => false) && b.modelHasClient

/-- Claim C8: whenever a network client exists for the turn, it is closed
before the turn completes, on every exit path — the normal one and the
exceptional ones, since the closing flag is independent of the run
outcome. -/
theorem client_closed_on_all_paths (b : ModelBackend)
    (h : clientExists b = true) :
    (get_agent_response_async b).2 = true := by
  obtain ⟨cr, hcl, rr⟩ := b
  cases cr with
  | error e => simp [clientExists] at h
  | ok u =>
    simp only [clientExists, Bool.true_and] at h
    simp [get_agent_response_async, h]

/-- Claim C8, witness: on a turn whose run raises, the client is still
closed. -/
theorem client_closed_on_all_paths_witness :
    (get_agent_response_async
        ⟨Except.ok (), true, Except.error "backend down"⟩).2 = true :=
  client_closed_on_all_paths ⟨Except.ok (), true, Except.error "backend down"⟩
    (by decide)

/-- One conversation entry of `st.session_state.messages`; `content` is
optional because the extractor fallback can return Python `None`. -/
structure ChatMessage where
  role : String
  content : Option String
deriving DecidableEq, Repr

/-- Embedding of `st.session_state.messages.append(...)`. -/
def appendEntry (msgs : List ChatMessage) (m : ChatMessage) : List ChatMessage :=
  msgs ++ [m]

/-- Embedding of one chat turn (`app.py` lines 169-180): append the user
entry, compute the reply, append the assistant entry. -/
def runTurn (msgs : List ChatMessage) (prompt : String) (b : ModelBackend) :
    List ChatMessage :=
  appendEntry (appendEntry msgs ⟨"user", some prompt⟩)
    ⟨"assistant", get_agent_response b⟩

/-- Claim C5: every turn — including turns whose backend construction or
run fails — appends exactly one user entry then exactly one assistant
entry, growing the conversation by exactly two, with the reply always the
final entry; when the agent call raises, the assistant entry carries the
error text. -/
theorem runTurn_appends_user_assistant (msgs : List ChatMessage)
    (prompt : String) (b : ModelBackend) :
    runTurn msgs prompt b
        = msgs ++ [⟨"user", some prompt⟩, ⟨"assistant", get_agent_response b⟩]
    ∧ (runTurn msgs prompt b).length = msgs.length + 2
    ∧ (runTurn msgs prompt b).getLast?
        = some ⟨"assistant", get_agent_response b⟩
    ∧ (∀ e, (get_agent_response_async b).1 = Except.error e →
        get_agent_response b = some (processingErrorLead ++ e)) := by
  refine ⟨?_, ?_, ?_, ?_⟩
  · simp [runTurn, appendEntry]
  · simp [runTurn, appendEntry]
  · simp [runTurn, appendEntry]
  · intro e he
    simp [get_agent_response, he]

/-- Claim C5, witness: a turn whose run raises still ends with an
assistant entry holding the error text. -/
theorem runTurn_appends_user_assistant_witness :
    get_agent_response ⟨Except.ok (), true, Except.error "down"⟩
      = some (processingErrorLead ++ "down") :=
  (runTurn_appends_user_assistant [] "hi"
    ⟨Except.ok (), true, Except.error "down"⟩).2.2.2 "down" rfl

/-- Claim C6: appending a user entry then an assistant entry and listing
the log returns all entries in append order with the roles preserved, and
the previously present entries survive unchanged, in order, as a prefix. -/
theorem appendEntry_roundTrip (msgs : List ChatMessage) (u a : String) :
    appendEntry (appendEntry msgs ⟨"user", some u⟩) ⟨"assistant", some a⟩
        = msgs ++ [⟨"user", some u⟩, ⟨"assistant", some a⟩]
    ∧ msgs <+:
        appendEntry (appendEntry msgs ⟨"user", some u⟩) ⟨"assistant", some a⟩ := by
  constructor
  · simp [appendEntry]
  · simp only [appendEntry, List.append_assoc]
    exact List.prefix_append _ _

/-! ### Startup (`app.py` lines 19-25) -/

/-- Streamlit secrets as visible at startup: the secrets file may be
missing entirely (FileNotFoundError) or lack either key (KeyError). -/
inductive SecretsSource where
  | fileMissing
  | available (googleApiKey : Option String) (googleCseId : Option String)
deriving DecidableEq, Repr

/-- Outcome of the startup block: `halted` models the error banner
followed by `st.stop()`, which prevents the chat UI from ever running;
`running` carries the environment the rest of the script sees. -/
inductive StartupOutcome where
  | halted
  | running (env : EnvState)
deriving DecidableEq, Repr

/-- Embedding of `app.py` lines 19-25: copy both secrets into the process
environment, halting the script when the file or either key is missing. -/
def startupLoadSecrets : SecretsSource → StartupOutcome
  | .fileMissing => .halted
  | .available k c =>
    match k with
    | none => .halted
    | some key =>
      match c with
      | none => .halted
      | some cse => .running ⟨some key, some cse⟩

/-- A required credential is absent from the secrets source. -/
def credentialsMissing : SecretsSource → Bool
  | .fileMissing => true
  | .available k c => k.isNone || c.isNone

/-- Claim C7: a missing credential halts the script at startup, before any
request is served, and conversely a running script always holds both
credentials — so their absence can never surface as a per-request
error. -/
theorem startup_requires_credentials (s : SecretsSource) :
    (credentialsMissing s = true → startupLoadSecrets s = StartupOutcome.halted)
    ∧ (∀ env, startupLoadSecrets s = StartupOutcome.running env →
        env.googleApiKey.isSome = true ∧ env.googleCseId.isSome = true) := by
  cases s with
  | fileMissing =>
    exact ⟨fun _ => rfl, by intro env h; simp [startupLoadSecrets] at h⟩
  | available k c =>
    cases k with
    | none =>
      exact ⟨fun _ => rfl, by intro env h; simp [startupLoadSecrets] at h⟩
    | some key =>
      cases c with
      | none =>
        exact ⟨fun _ => rfl, by intro env h; simp [startupLoadSecrets] at h⟩
      | some cse =>
        constructor
        · intro h
          simp [credentialsMissing] at h
        · intro env h
          simp only [startupLoadSecrets] at h
          injection h with h2
          subst h2
          exact ⟨rfl, rfl⟩

/-- Claim C7, witness: a missing secrets file halts startup. -/
theorem startup_requires_credentials_witness :
    startupLoadSecrets SecretsSource.fileMissing = StartupOutcome.halted :=
  (startup_requires_credentials SecretsSource.fileMissing).1 (by decide)

end UscisApp
